import Mathlib

/-!
Verification development for the overlay filesystem layer of this
repository (the `fs` package: overlay mount, lookup/merge engine,
whiteout handling, and attribute delegation).

The Go source is shallowly embedded: each overlay operation becomes a
pure Lean function over explicit data.  Backing-filesystem behaviour
(the results of the upper/lower layer calls made by an operation) is
passed in as explicit data, mirroring exactly the checks the Go code
performs on those results.  Mutation and delegation calls made by the
mutating operations are recorded in an explicit event trace so that
"performs no mutation" properties can be stated.
-/

/-- Errors used by the overlay code (`syserror` values). -/
inductive Errno where
  | ENOENT
  | ENODATA
  | ENOTEMPTY
  | EXDEV
  | EACCES
  | EOPNOTSUPP
  deriving DecidableEq

/-- File types carried in `StableAttr.Type` (gVisor `fs.InodeType`). -/
inductive InodeType where
  | RegularFile
  | SpecialFile
  | Directory
  | SpecialDirectory
  | Symlink
  | Pipe
  | Socket
  | CharacterDevice
  | BlockDevice
  | Anonymous
  deriving DecidableEq

/-- Stable attributes of an inode: file type plus identity fields
(device id, inode number) that must survive copy-up. -/
structure StableAttr where
  typ : InodeType
  deviceID : Nat
  inodeID : Nat
  deriving DecidableEq

/-- Modelled from the spec: `IsDir` returns true for the directory type
and the directory-like special type ("directories may additionally
merge with any directory-like special type"); the helper itself lives
outside the given source files. -/
def IsDir (s : StableAttr) : Bool :=
  s.typ = InodeType.Directory ∨ s.typ = InodeType.SpecialDirectory

/-- A backing-filesystem inode: stable attributes plus its extended
attributes, modelled as an association list. -/
structure Inode where
  stableAttr : StableAttr
  xattrs : List (String × String)
  deriving DecidableEq

/-- Modelled from the spec: `Inode.Getxattr` on a backing inode returns
the stored value of the named attribute, or a "no such attribute"
error; the dispatch through InodeOperations is outside the given
source. -/
def getxattrI (i : Inode) (n : String) : Except Errno String :=
  match i.xattrs.lookup n with
  | some v => Except.ok v
  | none => Except.error Errno.ENODATA

/-- Modelled from the spec: `Inode.Listxattr` on a backing inode
returns the set of stored attribute names. -/
def listxattrI (i : Inode) : List String :=
  i.xattrs.map Prod.fst

/-- Association-list update used to model `Setxattr`: replaces the
binding for `k` or appends it. -/
def setxattrA (xs : List (String × String)) (k v : String) : List (String × String) :=
  match xs with
  | [] => [(k, v)]
  | (k2, v2) :: rest => if k2 = k then (k, v) :: rest else (k2, v2) :: setxattrA rest k v

/-- Modelled from the spec: the reserved extended-attribute namespace
the overlay uses for its whiteout markers (the constant is declared
outside the given source files). -/
def xattrOverlayNS : String := "trusted.overlay."

/-- Modelled from the spec: the whiteout-marker key for a child name is
the reserved namespace plus a whiteout tag plus the masked child name. -/
def XattrOverlayWhiteout (name : String) : String :=
  xattrOverlayNS ++ "whiteout." ++ name

/-- Go `strings.HasPrefix s pre`: `pre` is a prefix of `s`. -/
def goHasPre (s pre : String) : Bool :=
  pre.data.isPrefixOf s.data

/-- `overlayHasWhiteout` (source lines 215-218): a whiteout for `name`
exists on `parentInode` when its whiteout xattr reads back as "y". -/
def overlayHasWhiteout (parentInode : Inode) (name : String) : Bool :=
  match getxattrI parentInode (XattrOverlayWhiteout name) with
  | Except.ok v => v = "y"
  | Except.error _ => false

/-- Result of a backing layer's `Lookup` call as the Go code sees it:
`child` is nil, a negative Dirent, or a positive Dirent with an inode. -/
inductive ChildRes where
  | negative
  | pos (i : Inode)
  deriving DecidableEq

/-- The `(child, err)` pair a backing layer's `Lookup` returns. -/
structure LayerLookup where
  child : Option ChildRes
  err : Option Errno
  deriving DecidableEq

/-- One layer of the parent directory: the layer's directory inode
(whose xattrs hold whiteout markers, for the upper layer) together
with the result of `Lookup(name)` on that layer. -/
structure DirLayer where
  inode : Inode
  res : LayerLookup
  deriving DecidableEq

/-- The parent `overlayEntry` as `overlayLookup` uses it: optional
upper and lower layers. -/
structure LookupEnv where
  upper : Option DirLayer
  lower : Option DirLayer
  deriving DecidableEq

/-- The `overlayEntry` produced for a merged child (`newOverlayEntry`
fields: upper inode, lower inode, and the sticky lowerExists flag).
Modelled from the spec as a total constructor: the entry is created at
successful merge; `newOverlayEntry` itself is outside the given
source. -/
structure OverlayEntryData where
  upper : Option Inode
  lower : Option Inode
  lowerExists : Bool
  deriving DecidableEq

/-- Outcome of `overlayLookup` (source lines 239-407): a Go panic, an
error, a negative Dirent, or a merged Dirent with its entry and the
in-upper provenance flag. -/
inductive OLResult where
  | panicked (msg : String)
  | err (e : Errno)
  | negative (name : String)
  | found (name : String) (entry : OverlayEntryData) (inUpper : Bool)
  deriving DecidableEq

/-- Final merge step of `overlayLookup` (source lines 358-406): the
both-nil check, attribute stealing, and release of the lower inode for
non-directories. -/
def overlayLookupMerge (name : String) (upperInode lowerInode : Option Inode)
    (negativeUpperChild : Bool) : OLResult :=
  match upperInode, lowerInode with
  | none, none =>
    if negativeUpperChild then OLResult.negative name else OLResult.err Errno.ENOENT
  | some u, some l =>
    let u2 : Inode := { u with stableAttr := l.stableAttr }
    if IsDir u2.stableAttr then
      OLResult.found name ⟨some u2, some l, true⟩ true
    else
      OLResult.found name ⟨some u2, none, true⟩ true
  | some u, none => OLResult.found name ⟨some u, none, false⟩ true
  | none, some l => OLResult.found name ⟨none, some l, true⟩ false

/-- Lower-layer child processing of `overlayLookup` (source lines
334-355): a positive lower child is kept if there is no upper match,
or if the types are compatible (equal, or both directory-like). -/
def overlayLookupLowerChild (ll : DirLayer) (name : String)
    (upperInode : Option Inode) (negativeUpperChild : Bool) : OLResult :=
  let lowerInode : Option Inode :=
    match ll.res.child with
    | some (ChildRes.pos i) =>
      match upperInode with
      | none => some i
      | some u =>
        if u.stableAttr.typ = i.stableAttr.typ ∨ (IsDir u.stableAttr ∧ IsDir i.stableAttr) then
          some i
        else
          none
    | _ => none
  overlayLookupMerge name upperInode lowerInode negativeUpperChild

/-- Lower-layer phase of `overlayLookup` (source lines 320-356): a
lower lookup error other than ENOENT is propagated. -/
def overlayLookupLowerPhase (lo : Option DirLayer) (name : String)
    (upperInode : Option Inode) (negativeUpperChild : Bool) : OLResult :=
  match lo with
  | none => overlayLookupMerge name upperInode none negativeUpperChild
  | some ll =>
    match ll.res.err with
    | some e =>
      if e = Errno.ENOENT then overlayLookupLowerChild ll name upperInode negativeUpperChild
      else OLResult.err e
    | none => overlayLookupLowerChild ll name upperInode negativeUpperChild

/-- Upper-layer phase of `overlayLookup` after the error check (source
lines 274-314): classify the upper child, then apply the whiteout
rule; all whiteout paths return without touching the lower layer. -/
def overlayLookupAfterUpper (ul : DirLayer) (lo : Option DirLayer) (name : String) : OLResult :=
  let upperInode : Option Inode :=
    match ul.res.child with
    | some (ChildRes.pos i) => some i
    | _ => none
  let negativeUpperChild : Bool :=
    match ul.res.child with
    | some ChildRes.negative => true
    | _ => false
  if overlayHasWhiteout ul.inode name then
    match upperInode with
    | none =>
      if negativeUpperChild then OLResult.negative name else OLResult.err Errno.ENOENT
    | some u => OLResult.found name ⟨some u, none, false⟩ true
  else
    overlayLookupLowerPhase lo name upperInode negativeUpperChild

/-- Upper-layer error check of `overlayLookup` (source lines 265-273):
an upper lookup error other than ENOENT is propagated. -/
def overlayLookupUpperPhase (ul : DirLayer) (lo : Option DirLayer) (name : String) : OLResult :=
  match ul.res.err with
  | some e =>
    if e = Errno.ENOENT then overlayLookupAfterUpper ul lo name else OLResult.err e
  | none => overlayLookupAfterUpper ul lo name

/-- `overlayLookup` (source lines 239-407): panics when the parent
entry has neither an upper nor a lower inode, otherwise runs the
upper phase (when an upper exists) then the lower phase. -/
def overlayLookup (p : LookupEnv) (name : String) : OLResult :=
  match p.upper, p.lower with
  | none, none => OLResult.panicked "invalid overlayEntry, needs at least one Inode"
  | some ul, lo => overlayLookupUpperPhase ul lo name
  | none, lo => overlayLookupLowerPhase lo name none false

/-- Outcome of an overlay operation that either succeeds with a value,
fails with an errno, or hits a Go panic. -/
inductive OpOut (α : Type) where
  | panicked (msg : String)
  | ok (v : α)
  | err (e : Errno)
  deriving DecidableEq

/-- Lift a backing-call result into an operation outcome. -/
def exOut {α : Type} : Except Errno α → OpOut α
  | Except.ok v => OpOut.ok v
  | Except.error e => OpOut.err e

/-- `overlayGetxattr` (source lines 699-721): refuses the name when the
Go test `strings.HasPrefix(XattrOverlayPrefix, name)` holds (note the
argument order of the source), else delegates to the upper inode if
present, otherwise the lower inode. -/
def overlayGetxattr (o : OverlayEntryData) (name : String) : OpOut String :=
  if goHasPre xattrOverlayNS name then OpOut.err Errno.ENODATA
  else
    match o.upper with
    | some u => exOut (getxattrI u name)
    | none =>
      match o.lower with
      | some l => exOut (getxattrI l name)
      | none => OpOut.panicked "nil lower inode"

/-- `overlayListxattr` (source lines 723-741): list from the upper
inode if present else the lower, then delete every name for which the
Go test `strings.HasPrefix(XattrOverlayPrefix, name)` holds (again the
argument order of the source). -/
def overlayListxattr (o : OverlayEntryData) : OpOut (List String) :=
  match o.upper with
  | some u => OpOut.ok ((listxattrI u).filter (fun n => !goHasPre xattrOverlayNS n))
  | none =>
    match o.lower with
    | some l => OpOut.ok ((listxattrI l).filter (fun n => !goHasPre xattrOverlayNS n))
    | none => OpOut.panicked "nil lower inode"

/-- A permission mask (gVisor `fs.PermMask`). -/
structure PermMask where
  read : Bool
  write : Bool
  execute : Bool
  deriving DecidableEq

/-- Turn a delegated check call's error result into an outcome. -/
def checkRet (r : Option Errno) : OpOut Unit :=
  match r with
  | none => OpOut.ok ()
  | some e => OpOut.err e

/-- `overlayCheck` (source lines 743-760): with an upper inode the
requested mask goes to the upper layer unchanged; on a lower-only
entry, when the mask requests write the code clears write and sets
read before delegating to the lower layer.  The two layers' `check`
calls are abstracted as the function parameters. -/
def overlayCheck (o : OverlayEntryData) (upperCheck lowerCheck : PermMask → Option Errno)
    (p : PermMask) : OpOut Unit :=
  match o.upper with
  | some _ => checkRet (upperCheck p)
  | none =>
    match o.lower with
    | none => OpOut.panicked "nil lower inode"
    | some _ =>
      let p2 := if p.write then { p with write := false, read := true } else p
      checkRet (lowerCheck p2)

/-- `Revalidate` on the overlay mount (source lines 93-116): panics if
the child or the parent is not an overlay inode; panics if the child
has a lower inode and the lower mount wants to revalidate it; answers
false for an entry with no upper inode; otherwise answers whatever the
upper mount answers.  `lowerReval` and `upperReval` abstract the two
delegated `Revalidate` calls. -/
def overlayRevalidate (childOv : Option OverlayEntryData) (parentOv : Option OverlayEntryData)
    (lowerReval upperReval : Bool) : OpOut Bool :=
  match childOv with
  | none => OpOut.panicked "overlay cannot revalidate inode that is not an overlay"
  | some ce =>
    match parentOv with
    | none => OpOut.panicked "trying to revalidate an overlay inode but the parent is not an overlay"
    | some _ =>
      if ce.lower.isSome ∧ lowerReval then
        OpOut.panicked "an overlay cannot revalidate file objects from the lower fs"
      else if ce.upper.isNone then
        OpOut.ok false
      else
        OpOut.ok upperReval

/-- Mutation/delegation calls `overlayRemove` can make, in order. -/
inductive RmEvent where
  | copyUpParent
  | upperRemoveDirectory (name : String)
  | upperRemove (name : String)
  | createWhiteout (name : String)
  deriving DecidableEq

/-- Results of the backing calls `overlayRemove` makes: `none` means
the call succeeds. -/
structure RemoveEnv where
  copyUpParentErr : Option Errno
  upperRemoveDirErr : Option Errno
  upperRemoveErr : Option Errno
  setxattrErr : Option Errno
  deriving DecidableEq

/-- Outcome of `overlayRemove`: the returned error (none on success),
the trace of mutation calls made, and the parent upper inode's
extended attributes afterwards. -/
structure RemoveOut where
  res : Option Errno
  events : List RmEvent
  parentUpperXattrs : List (String × String)
  deriving DecidableEq

/-- Whiteout step of `overlayRemove` (source lines 520-523 with
`overlayCreateWhiteout`, lines 220-222): when the child entry has
`lowerExists`, set the whiteout xattr on the parent's upper inode. -/
def overlayRemoveWhiteoutStep (env : RemoveEnv) (parentUpper : Inode)
    (childEntry : OverlayEntryData) (name : String) (evs : List RmEvent) : RemoveOut :=
  if childEntry.lowerExists then
    match env.setxattrErr with
    | some e => ⟨some e, evs ++ [RmEvent.createWhiteout name], parentUpper.xattrs⟩
    | none =>
      ⟨none, evs ++ [RmEvent.createWhiteout name],
        setxattrA parentUpper.xattrs (XattrOverlayWhiteout name) "y"⟩
  else
    ⟨none, evs, parentUpper.xattrs⟩

/-- `overlayRemove` (source lines 501-524): copy-up the parent; if the
child has an upper inode, delegate `RemoveDirectory` when the child's
stable type is `Directory` and `Remove` otherwise; then the whiteout
step.  `parentUpper` is the parent's upper inode (guaranteed by the
preceding copy-up). -/
def overlayRemove (env : RemoveEnv) (parentUpper : Inode) (childEntry : OverlayEntryData)
    (childTyp : InodeType) (name : String) : RemoveOut :=
  match env.copyUpParentErr with
  | some e => ⟨some e, [RmEvent.copyUpParent], parentUpper.xattrs⟩
  | none =>
    match childEntry.upper with
    | some _ =>
      if childTyp = InodeType.Directory then
        match env.upperRemoveDirErr with
        | some e =>
          ⟨some e, [RmEvent.copyUpParent, RmEvent.upperRemoveDirectory name], parentUpper.xattrs⟩
        | none =>
          overlayRemoveWhiteoutStep env parentUpper childEntry name
            [RmEvent.copyUpParent, RmEvent.upperRemoveDirectory name]
      else
        match env.upperRemoveErr with
        | some e =>
          ⟨some e, [RmEvent.copyUpParent, RmEvent.upperRemove name], parentUpper.xattrs⟩
        | none =>
          overlayRemoveWhiteoutStep env parentUpper childEntry name
            [RmEvent.copyUpParent, RmEvent.upperRemove name]
    | none => overlayRemoveWhiteoutStep env parentUpper childEntry name [RmEvent.copyUpParent]

/-- Mutation/delegation calls `overlayRename` can make, in order. -/
inductive RnEvent where
  | copyUpRenamed
  | copyUpNewParent
  | upperRename (oldName newName : String) (replacement : Bool)
  | createWhiteout (name : String)
  deriving DecidableEq

/-- Result of `overlayRename`: a Go panic (propagated from the
re-resolution) or a returned error code (none on success). -/
inductive RenameRes where
  | panicked (msg : String)
  | ret (e : Option Errno)
  deriving DecidableEq

/-- Outcome of `overlayRename`: result plus the trace of mutation
calls made. -/
structure RenameOut where
  res : RenameRes
  events : List RnEvent
  deriving DecidableEq

/-- Inputs of `overlayRename` that come from the backing layers: the
lookup environment used to re-resolve the destination name under
lock, the result of `readdirOne` on the resolved destination
(modelled from the spec: the destination directory's children without
"." and ".."; `readdirOne` is outside the given source), and the
results of the copy-up, upper rename and whiteout calls (none means
success). -/
structure RenameEnv where
  resolveEnv : LookupEnv
  readdir : Except Errno (List String)
  copyUpRenamedErr : Option Errno
  copyUpNewParentErr : Option Errno
  upperRenameErr : Option Errno
  whiteoutErr : Option Errno

/-- Modelled from the spec: the overlay Dirent returned by the merge
serves the stable attributes of its upper inode when present, else of
its lower inode (`newOverlayInode` is outside the given source). -/
def entryStableAttr (e : OverlayEntryData) : StableAttr :=
  match e.upper with
  | some u => u.stableAttr
  | none => (e.lower.map Inode.stableAttr).getD ⟨InodeType.RegularFile, 0, 0⟩

/-- Tail of `overlayRename` (source lines 587-600): copy-up the
renamed entry and the destination parent, delegate the rename to the
upper layer with the (possibly downgraded) replacement flag, and
whiteout the old name when the renamed entry had a lower
counterpart. -/
def overlayRenameFinish (env : RenameEnv) (renamedLowerExists : Bool)
    (oldName newName : String) (replacement : Bool) : RenameOut :=
  match env.copyUpRenamedErr with
  | some e => ⟨RenameRes.ret (some e), [RnEvent.copyUpRenamed]⟩
  | none =>
    match env.copyUpNewParentErr with
    | some e => ⟨RenameRes.ret (some e), [RnEvent.copyUpRenamed, RnEvent.copyUpNewParent]⟩
    | none =>
      match env.upperRenameErr with
      | some e =>
        ⟨RenameRes.ret (some e),
          [RnEvent.copyUpRenamed, RnEvent.copyUpNewParent,
            RnEvent.upperRename oldName newName replacement]⟩
      | none =>
        if renamedLowerExists then
          match env.whiteoutErr with
          | some e =>
            ⟨RenameRes.ret (some e),
              [RnEvent.copyUpRenamed, RnEvent.copyUpNewParent,
                RnEvent.upperRename oldName newName replacement,
                RnEvent.createWhiteout oldName]⟩
          | none =>
            ⟨RenameRes.ret none,
              [RnEvent.copyUpRenamed, RnEvent.copyUpNewParent,
                RnEvent.upperRename oldName newName replacement,
                RnEvent.createWhiteout oldName]⟩
        else
          ⟨RenameRes.ret none,
            [RnEvent.copyUpRenamed, RnEvent.copyUpNewParent,
              RnEvent.upperRename oldName newName replacement]⟩

/-- `overlayRename` (source lines 526-601): fail with EXDEV unless the
renamed entry, old parent and new parent are all overlay inodes; on a
replacing rename, re-resolve the destination name, downgrade the
replacement flag when the destination is not upper-resident, and fail
with ENOTEMPTY — before any mutation — when the destination is a
non-negative directory with children; then the finishing tail. -/
def overlayRename (env : RenameEnv)
    (renamedIsOverlay oldParentIsOverlay newParentIsOverlay : Bool)
    (renamedLowerExists : Bool) (oldName newName : String) (replacement : Bool) : RenameOut :=
  if !renamedIsOverlay || !newParentIsOverlay || !oldParentIsOverlay then
    ⟨RenameRes.ret (some Errno.EXDEV), []⟩
  else if replacement then
    match overlayLookup env.resolveEnv newName with
    | OLResult.panicked m => ⟨RenameRes.panicked m, []⟩
    | OLResult.err e =>
      if e = Errno.ENOENT then overlayRenameFinish env renamedLowerExists oldName newName true
      else ⟨RenameRes.ret (some e), []⟩
    | OLResult.negative _ => overlayRenameFinish env renamedLowerExists oldName newName false
    | OLResult.found _ entry inUpper =>
      let replacement2 := if !inUpper then false else true
      if IsDir (entryStableAttr entry) then
        match env.readdir with
        | Except.error e => ⟨RenameRes.ret (some e), []⟩
        | Except.ok children =>
          if children.length > 0 then ⟨RenameRes.ret (some Errno.ENOTEMPTY), []⟩
          else overlayRenameFinish env renamedLowerExists oldName newName replacement2
      else overlayRenameFinish env renamedLowerExists oldName newName replacement2
  else overlayRenameFinish env renamedLowerExists oldName newName false

/-- The layer lookup returned no hard error (err is nil or ENOENT). -/
def benignErr : Option Errno → Bool
  | none => true
  | some Errno.ENOENT => true
  | some _ => false

/-- The layer lookup produced no positive child. -/
def noPosChild : Option ChildRes → Bool
  | some (ChildRes.pos _) => false
  | _ => true

/-- The optional upper layer produced no positive match, no hard
error, and holds no whiteout for `name`. -/
def upperNoMatch (up : Option DirLayer) (name : String) : Bool :=
  match up with
  | none => true
  | some ul => benignErr ul.res.err && noPosChild ul.res.child && !overlayHasWhiteout ul.inode name

/-- The optional layer is error-free and produced no positive child. -/
def layerBenignNoMatch (dl : Option DirLayer) : Bool :=
  match dl with
  | none => true
  | some ul => benignErr ul.res.err && noPosChild ul.res.child

/-- The optional upper layer returned a negative Dirent. -/
def upperNegative (dl : Option DirLayer) : Bool :=
  match dl with
  | some ul =>
    match ul.res.child with
    | some ChildRes.negative => true
    | _ => false
  | none => false

/- Concrete fixtures used by witnesses and counterexamples. -/

def attrFile : StableAttr := ⟨InodeType.RegularFile, 1, 10⟩

def attrDir : StableAttr := ⟨InodeType.Directory, 1, 11⟩

def inodePlain : Inode := ⟨attrFile, []⟩

def inodeDirPlain : Inode := ⟨attrDir, []⟩

def inodeLowerFile : Inode := ⟨⟨InodeType.RegularFile, 1, 12⟩, [("user.a", "b")]⟩

def inodeUpperFile : Inode := ⟨⟨InodeType.RegularFile, 2, 20⟩, [("user.c", "d")]⟩

def inodeWhiteoutFoo : Inode := ⟨attrDir, [(XattrOverlayWhiteout "foo", "y")]⟩

def lowerLayerFoo : DirLayer := ⟨inodeDirPlain, ⟨some (ChildRes.pos inodeLowerFile), none⟩⟩

/-- C1: retrieving a reserved-namespace attribute is meant to fail with
ENODATA and listing is meant to hide such names.  The source instead
calls `strings.HasPrefix(XattrOverlayPrefix, name)` with the arguments
reversed, so a genuine whiteout-namespace name (a strict extension of
the reserved namespace) is forwarded by `overlayGetxattr` (for both
upper- and lower-resident entries) and kept by `overlayListxattr`. -/
theorem c1_reserved_xattr_leaks :
    goHasPre (XattrOverlayWhiteout "foo") xattrOverlayNS = true
    ∧ overlayGetxattr ⟨some inodeWhiteoutFoo, none, false⟩ (XattrOverlayWhiteout "foo")
        = OpOut.ok "y"
    ∧ overlayGetxattr ⟨none, some inodeWhiteoutFoo, true⟩ (XattrOverlayWhiteout "foo")
        = OpOut.ok "y"
    ∧ overlayListxattr ⟨some inodeWhiteoutFoo, none, false⟩
        = OpOut.ok [XattrOverlayWhiteout "foo"] := by
  refine ⟨by decide, by decide, by decide, by decide⟩

/-- C9: an overlay entry with neither an upper nor a lower inode is
fatal: `overlayLookup` on such a parent panics instead of returning an
error, and `Revalidate` panics when the child or the parent inode is
not an overlay inode. -/
theorem c9_invariant_violation_panics (name : String) (pe ce : OverlayEntryData) (lr ur : Bool) :
    overlayLookup ⟨none, none⟩ name
      = OLResult.panicked "invalid overlayEntry, needs at least one Inode"
    ∧ overlayRevalidate none (some pe) lr ur
      = OpOut.panicked "overlay cannot revalidate inode that is not an overlay"
    ∧ overlayRevalidate (some ce) none lr ur
      = OpOut.panicked "trying to revalidate an overlay inode but the parent is not an overlay" :=
  ⟨rfl, rfl, rfl⟩

/-- C3 counterexample: with a whiteout for "foo" on the parent's upper
inode and an upper lookup that finds a file (one created over the
whiteout), `overlayLookup` returns a merged upper-only Dirent — it is
neither a negative Dirent nor a not-found error, contradicting the
claim's stated dichotomy. -/
theorem c3_counterexample :
    overlayHasWhiteout inodeWhiteoutFoo "foo" = true
    ∧ overlayLookup ⟨some ⟨inodeWhiteoutFoo, ⟨some (ChildRes.pos inodeUpperFile), none⟩⟩,
        some lowerLayerFoo⟩ "foo"
      = OLResult.found "foo" ⟨some inodeUpperFile, none, false⟩ true
    ∧ overlayLookup ⟨some ⟨inodeWhiteoutFoo, ⟨some (ChildRes.pos inodeUpperFile), none⟩⟩,
        some lowerLayerFoo⟩ "foo" ≠ OLResult.negative "foo"
    ∧ overlayLookup ⟨some ⟨inodeWhiteoutFoo, ⟨some (ChildRes.pos inodeUpperFile), none⟩⟩,
        some lowerLayerFoo⟩ "foo" ≠ OLResult.err Errno.ENOENT := by
  refine ⟨by decide, by decide, by decide, by decide⟩

/-- C3 amended: when a whiteout for `name` exists on the parent's
upper layer, the lower layer is never consulted (the outcome does not
depend on the lower layer at all); a negative Dirent is produced only
when the upper lookup itself was negative; and any merged Dirent is
upper-only (lower = nil, lowerExists = false) — it is a file created
over the whiteout, never a value from the lower layer. -/
theorem c3_whiteout_masks_lower (ul : DirLayer) (lo lo2 : Option DirLayer) (name : String)
    (hw : overlayHasWhiteout ul.inode name = true) :
    overlayLookup ⟨some ul, lo⟩ name = overlayLookup ⟨some ul, lo2⟩ name
    ∧ (∀ nm e iu, overlayLookup ⟨some ul, lo⟩ name = OLResult.found nm e iu →
        e.lower = none ∧ e.lowerExists = false ∧ iu = true)
    ∧ (overlayLookup ⟨some ul, lo⟩ name = OLResult.negative name →
        ul.res.child = some ChildRes.negative) := by
  unfold overlayLookup overlayLookupUpperPhase overlayLookupAfterUpper
  rcases herr : ul.res.err with _ | e
  · rcases hc : ul.res.child with _ | c
    · simp [herr, hc, hw]
    · rcases c with _ | i <;> simp [herr, hc, hw]
  · by_cases he : e = Errno.ENOENT
    · subst he
      rcases hc : ul.res.child with _ | c
      · simp [herr, hc, hw]
      · rcases c with _ | i <;> simp [herr, hc, hw]
    · simp [herr, he]

/-- C3 witness: the amended theorem applied at a concrete whiteout. -/
theorem c3_whiteout_masks_lower_witness :
    overlayLookup ⟨some ⟨inodeWhiteoutFoo, ⟨some ChildRes.negative, none⟩⟩,
        some lowerLayerFoo⟩ "foo"
      = overlayLookup ⟨some ⟨inodeWhiteoutFoo, ⟨some ChildRes.negative, none⟩⟩, none⟩ "foo" :=
  (c3_whiteout_masks_lower ⟨inodeWhiteoutFoo, ⟨some ChildRes.negative, none⟩⟩
    (some lowerLayerFoo) none "foo" (by decide)).1

/-- A probing lower-layer check call: succeeds exactly when the
delegated mask requests read. -/
def lcProbe : PermMask → Option Errno :=
  fun m => if m.read then none else some Errno.EACCES

/-- An upper-layer check call that always succeeds. -/
def ucNone : PermMask → Option Errno :=
  fun _ => none

/-- C8 counterexample: on a lower-only entry with requested mask
{read = false, write = false, execute = true}, the claim says the
delegated mask has read forced on — under `lcProbe` that would
succeed — but `overlayCheck` delegates the mask unchanged (the code
only rewrites the mask when write is requested), so the probing check
fails with EACCES. -/
theorem c8_counterexample :
    overlayCheck ⟨none, some inodePlain, true⟩ ucNone lcProbe ⟨false, false, true⟩
      = OpOut.err Errno.EACCES
    ∧ lcProbe ⟨true, false, true⟩ = none := by
  refine ⟨by decide, by decide⟩

/-- C8 amended: with an upper inode present the requested mask is
delegated to the upper layer unchanged; on a lower-only entry the
delegated mask clears write and sets read when the requested mask had
write set, and is the requested mask unchanged otherwise. -/
theorem c8_check_mask (o : OverlayEntryData) (uc lc : PermMask → Option Errno) (p : PermMask) :
    (o.upper.isSome = true → overlayCheck o uc lc p = checkRet (uc p))
    ∧ (o.upper = none → o.lower.isSome = true →
        overlayCheck o uc lc p
          = checkRet (lc (if p.write then ⟨true, false, p.execute⟩ else p))) := by
  constructor
  · intro hu
    rcases h : o.upper with _ | u
    · rw [h] at hu; simp at hu
    · simp [overlayCheck, h]
  · intro hu hl
    rcases h : o.lower with _ | l
    · rw [h] at hl; simp at hl
    · rcases p with ⟨r, w, x⟩
      cases w <;> simp [overlayCheck, hu, h]

/-- C8 witness: the amended theorem applied on a lower-only entry with
a write-requesting mask. -/
theorem c8_check_mask_witness :
    overlayCheck ⟨none, some inodePlain, true⟩ ucNone lcProbe ⟨false, true, false⟩
      = checkRet (lcProbe ⟨true, false, false⟩) :=
  (c8_check_mask ⟨none, some inodePlain, true⟩ ucNone lcProbe ⟨false, true, false⟩).2 rfl rfl

/-- C10 counterexample: a lower-only entry whose lower mount reports
that the child requires revalidation makes `Revalidate` panic — it
does not return false as the claim states. -/
theorem c10_counterexample :
    overlayRevalidate (some ⟨none, some inodePlain, true⟩) (some ⟨none, some inodePlain, true⟩)
        true false
      = OpOut.panicked "an overlay cannot revalidate file objects from the lower fs"
    ∧ overlayRevalidate (some ⟨none, some inodePlain, true⟩) (some ⟨none, some inodePlain, true⟩)
        true false
      ≠ OpOut.ok false := by
  refine ⟨by decide, by decide⟩

/-- C10 amended: provided the lower mount does not itself demand
revalidation of the child (which panics), `Revalidate` answers false
for an entry with no upper inode, and answers the upper delegate's
result exactly when an upper inode exists. -/
theorem c10_revalidate_lower_only (ce pe : OverlayEntryData) (lr ur : Bool)
    (hsafe : ce.lower.isSome = true → lr = false) :
    (ce.upper = none → overlayRevalidate (some ce) (some pe) lr ur = OpOut.ok false)
    ∧ (ce.upper.isSome = true → overlayRevalidate (some ce) (some pe) lr ur = OpOut.ok ur) := by
  have hcond : ¬(ce.lower.isSome ∧ lr) := by
    rintro ⟨h1, h2⟩
    have := hsafe h1
    rw [this] at h2
    exact Bool.false_ne_true h2
  constructor
  · intro hu
    simp [overlayRevalidate, hcond, hu]
  · intro hu
    have : ¬ce.upper.isNone := by
      simp [Option.isNone_iff_eq_none]
      rcases h : ce.upper with _ | u
      · rw [h] at hu; simp at hu
      · simp
    simp [overlayRevalidate, hcond, this]

/-- C10 witness: the amended theorem applied to a concrete lower-only
entry with a quiescent lower mount. -/
theorem c10_revalidate_lower_only_witness :
    overlayRevalidate (some ⟨none, some inodePlain, true⟩) (some ⟨none, some inodePlain, true⟩)
        false true
      = OpOut.ok false :=
  (c10_revalidate_lower_only ⟨none, some inodePlain, true⟩ ⟨none, some inodePlain, true⟩
    false true (fun _ => rfl)).1 rfl

/-- The merge step produces a negative Dirent only from a remembered
negative upper child with nothing found in either layer. -/
theorem merge_negative_elim (name nm : String) (ui li : Option Inode) (b : Bool)
    (h : overlayLookupMerge name ui li b = OLResult.negative nm) :
    b = true ∧ ui = none ∧ li = none := by
  cases ui <;> cases li <;> simp [overlayLookupMerge] at h ⊢
  · cases b with
    | false => simp at h
    | true => rfl
  · split at h <;> simp at h

/-- The lower-child step produces a negative Dirent only from a
remembered negative upper child. -/
theorem lowerChild_negative_elim (ll : DirLayer) (name nm : String) (ui : Option Inode) (b : Bool)
    (h : overlayLookupLowerChild ll name ui b = OLResult.negative nm) : b = true := by
  unfold overlayLookupLowerChild at h
  exact (merge_negative_elim _ _ _ _ _ h).1

/-- The lower phase produces a negative Dirent only from a remembered
negative upper child. -/
theorem lowerPhase_negative_elim (lo : Option DirLayer) (name nm : String) (ui : Option Inode)
    (b : Bool) (h : overlayLookupLowerPhase lo name ui b = OLResult.negative nm) : b = true := by
  rcases lo with _ | ⟨lin, lch, lerr⟩
  · exact (merge_negative_elim _ _ _ _ _ (by simpa [overlayLookupLowerPhase] using h)).1
  · rcases lerr with _ | e
    · simp only [overlayLookupLowerPhase] at h
      exact lowerChild_negative_elim _ _ _ _ _ h
    · simp only [overlayLookupLowerPhase] at h
      by_cases he : e = Errno.ENOENT
      · rw [if_pos he] at h
        exact lowerChild_negative_elim _ _ _ _ _ h
      · rw [if_neg he] at h
        simp at h

/-- The post-error upper phase produces a negative Dirent only when
the upper lookup itself returned a negative Dirent. -/
theorem afterUpper_negative_elim (ul : DirLayer) (lo : Option DirLayer) (name nm : String)
    (h : overlayLookupAfterUpper ul lo name = OLResult.negative nm) :
    ul.res.child = some ChildRes.negative := by
  rcases ul with ⟨uin, uch, uerr⟩
  rcases uch with _ | c
  · by_cases hw : overlayHasWhiteout uin name
    · simp [overlayLookupAfterUpper, hw] at h
    · simp only [overlayLookupAfterUpper, hw, Bool.false_eq_true, if_false] at h
      exact absurd (lowerPhase_negative_elim _ _ _ _ _ h) (by simp)
  · rcases c with _ | i
    · rfl
    · by_cases hw : overlayHasWhiteout uin name
      · simp [overlayLookupAfterUpper, hw] at h
      · simp only [overlayLookupAfterUpper, hw, Bool.false_eq_true, if_false] at h
        exact absurd (lowerPhase_negative_elim _ _ _ _ _ h) (by simp)

/-- The full upper phase produces a negative Dirent only when the
upper lookup itself returned a negative Dirent. -/
theorem upperPhase_negative_elim (ul : DirLayer) (lo : Option DirLayer) (name nm : String)
    (h : overlayLookupUpperPhase ul lo name = OLResult.negative nm) :
    ul.res.child = some ChildRes.negative := by
  rcases ul with ⟨uin, uch, uerr⟩
  rcases uerr with _ | e
  · simp only [overlayLookupUpperPhase] at h
    exact afterUpper_negative_elim _ _ _ _ h
  · simp only [overlayLookupUpperPhase] at h
    by_cases he : e = Errno.ENOENT
    · rw [if_pos he] at h
      exact afterUpper_negative_elim _ _ _ _ h
    · rw [if_neg he] at h
      simp at h

/-- A benign no-match lower phase with no upper match resolves to a
negative Dirent exactly when the upper was negative, else ENOENT. -/
theorem lowerPhase_benign_char (lo : Option DirLayer) (name : String) (b : Bool)
    (hb : layerBenignNoMatch lo = true) :
    overlayLookupLowerPhase lo name none b
      = if b then OLResult.negative name else OLResult.err Errno.ENOENT := by
  rcases lo with _ | ⟨lin, lch, lerr⟩
  · simp [overlayLookupLowerPhase, overlayLookupMerge]
  · simp only [layerBenignNoMatch, Bool.and_eq_true] at hb
    obtain ⟨h1, h2⟩ := hb
    rcases lerr with _ | e
    · rcases lch with _ | c
      · simp [overlayLookupLowerPhase, overlayLookupLowerChild, overlayLookupMerge]
      · rcases c with _ | i
        · simp [overlayLookupLowerPhase, overlayLookupLowerChild, overlayLookupMerge]
        · simp [noPosChild] at h2
    · rcases e with _ | _ | _ | _ | _ | _
      all_goals try exact absurd h1 (by decide)
      · rcases lch with _ | c
        · simp [overlayLookupLowerPhase, overlayLookupLowerChild, overlayLookupMerge]
        · rcases c with _ | i
          · simp [overlayLookupLowerPhase, overlayLookupLowerChild, overlayLookupMerge]
          · simp [noPosChild] at h2

/-- C4: when neither layer produces a match (both lookups complete
without a positive child and without a hard error), `overlayLookup`
returns a negative Dirent exactly when the upper lookup was negative
and a not-found error otherwise; moreover, on every input whatsoever,
a negative Dirent is only ever returned when the upper layer itself
returned one. -/
theorem c4_absent_name (p : LookupEnv) (name : String) :
    (¬(p.upper = none ∧ p.lower = none) →
      layerBenignNoMatch p.upper = true →
      layerBenignNoMatch p.lower = true →
      (upperNegative p.upper = true → overlayLookup p name = OLResult.negative name)
      ∧ (upperNegative p.upper = false → overlayLookup p name = OLResult.err Errno.ENOENT))
    ∧ (∀ nm, overlayLookup p name = OLResult.negative nm → upperNegative p.upper = true) := by
  rcases p with ⟨up, lo⟩
  constructor
  · intro hnn hbu hbl
    rcases up with _ | ⟨uin, uch, uerr⟩
    · constructor
      · intro hneg
        simp [upperNegative] at hneg
      · intro _
        rcases lo with _ | ll
        · exact absurd ⟨rfl, rfl⟩ hnn
        · simpa [overlayLookup] using lowerPhase_benign_char (some ll) name false hbl
    · simp only [layerBenignNoMatch, Bool.and_eq_true] at hbu
      obtain ⟨h1, h2⟩ := hbu
      have hchar : ∀ b2 : Bool,
          overlayLookupAfterUpper ⟨uin, uch, uerr⟩ lo name
            = (if (match uch with
                    | some ChildRes.negative => true
                    | _ => false) then OLResult.negative name else OLResult.err Errno.ENOENT) := by
        intro b2
        rcases uch with _ | c
        · by_cases hw : overlayHasWhiteout uin name
          · simp [overlayLookupAfterUpper, hw]
          · simp only [overlayLookupAfterUpper, hw, Bool.false_eq_true, if_false]
            simpa using lowerPhase_benign_char lo name false hbl
        · rcases c with _ | i
          · by_cases hw : overlayHasWhiteout uin name
            · simp [overlayLookupAfterUpper, hw]
            · simp only [overlayLookupAfterUpper, hw, Bool.false_eq_true, if_false]
              simpa using lowerPhase_benign_char lo name true hbl
          · simp [noPosChild] at h2
      have hup : overlayLookup ⟨some ⟨uin, uch, uerr⟩, lo⟩ name
          = overlayLookupAfterUpper ⟨uin, uch, uerr⟩ lo name := by
        rcases uerr with _ | e
        · simp [overlayLookup, overlayLookupUpperPhase]
        · rcases e with _ | _ | _ | _ | _ | _
          all_goals simp [benignErr] at h1
          simp [overlayLookup, overlayLookupUpperPhase]
      constructor
      · intro hneg
        simp only [upperNegative] at hneg
        rw [hup, hchar true, hneg]
        simp
      · intro hneg
        simp only [upperNegative] at hneg
        rw [hup, hchar true, hneg]
        simp
  · intro nm h
    rcases up with _ | ul
    · rcases lo with _ | ll
      · simp [overlayLookup] at h
      · exact absurd (lowerPhase_negative_elim _ _ _ _ _ (by simpa [overlayLookup] using h))
          (by simp)
    · have := upperPhase_negative_elim ul lo name nm (by simpa [overlayLookup] using h)
      simp [upperNegative, this]

/-- C4 witness: the theorem applied to a concrete environment whose
upper layer reports a negative Dirent and whose lower layer reports
nothing. -/
theorem c4_absent_name_witness :
    overlayLookup ⟨some ⟨inodeDirPlain, ⟨some ChildRes.negative, none⟩⟩,
        some ⟨inodeDirPlain, ⟨none, some Errno.ENOENT⟩⟩⟩ "foo"
      = OLResult.negative "foo" :=
  ((c4_absent_name ⟨some ⟨inodeDirPlain, ⟨some ChildRes.negative, none⟩⟩,
      some ⟨inodeDirPlain, ⟨none, some Errno.ENOENT⟩⟩⟩ "foo").1
    (by simp) (by decide) (by decide)).1 (by decide)


/-- C5: a lookup of a file present only in the lower layer (no upper
positive match, no whiteout, no hard errors) merges to an entry with
upper = nil, lower = the lower inode, lowerExists = true, and a false
upper-provenance flag. -/
theorem c5_lower_only (up : Option DirLayer) (lin : Inode) (lch : Option ChildRes)
    (lerr : Option Errno) (l : Inode) (name : String)
    (hup : upperNoMatch up name = true)
    (hle : benignErr lerr = true)
    (hlc : lch = some (ChildRes.pos l)) :
    overlayLookup ⟨up, some ⟨lin, lch, lerr⟩⟩ name
      = OLResult.found name ⟨none, some l, true⟩ false := by
  subst hlc
  have hlow : ∀ b : Bool,
      overlayLookupLowerPhase (some ⟨lin, some (ChildRes.pos l), lerr⟩) name none b
        = OLResult.found name ⟨none, some l, true⟩ false := by
    intro b
    rcases lerr with _ | e
    · simp [overlayLookupLowerPhase, overlayLookupLowerChild, overlayLookupMerge]
    · rcases e with _ | _ | _ | _ | _ | _
      all_goals try exact absurd hle (by decide)
      simp [overlayLookupLowerPhase, overlayLookupLowerChild, overlayLookupMerge]
  rcases up with _ | ⟨uin, uch, uerr⟩
  · simpa [overlayLookup] using hlow false
  · simp only [upperNoMatch, Bool.and_eq_true, Bool.not_eq_true'] at hup
    obtain ⟨⟨h1, h2⟩, hw⟩ := hup
    have hafter : overlayLookupAfterUpper ⟨uin, uch, uerr⟩
        (some ⟨lin, some (ChildRes.pos l), lerr⟩) name
          = OLResult.found name ⟨none, some l, true⟩ false := by
      rcases uch with _ | c
      · simp only [overlayLookupAfterUpper, hw, Bool.false_eq_true, if_false]
        exact hlow false
      · rcases c with _ | i
        · simp only [overlayLookupAfterUpper, hw, Bool.false_eq_true, if_false]
          exact hlow true
        · simp [noPosChild] at h2
    rcases uerr with _ | e
    · simpa [overlayLookup, overlayLookupUpperPhase] using hafter
    · rcases e with _ | _ | _ | _ | _ | _
      all_goals try exact absurd h1 (by decide)
      simpa [overlayLookup, overlayLookupUpperPhase] using hafter

/-- C5 witness: the theorem applied where the upper layer reports
ENOENT and the lower layer finds the file. -/
theorem c5_lower_only_witness :
    overlayLookup ⟨some ⟨inodeDirPlain, ⟨none, some Errno.ENOENT⟩⟩,
        some ⟨inodeDirPlain, ⟨some (ChildRes.pos inodeLowerFile), none⟩⟩⟩ "foo"
      = OLResult.found "foo" ⟨none, some inodeLowerFile, true⟩ false :=
  c5_lower_only (some ⟨inodeDirPlain, ⟨none, some Errno.ENOENT⟩⟩) inodeDirPlain
    (some (ChildRes.pos inodeLowerFile)) none inodeLowerFile "foo"
    (by decide) (by decide) (by decide)

/-- C6: when the upper and lower layers both produce a positive match
of compatible types (equal, or both directory-like), with no whiteout
and no hard errors, the merged entry carries the upper inode with its
stable attributes overwritten by the lower inode's stable attributes;
when the merged (stolen) type is not a directory the lower reference
is dropped (lower = nil) while lowerExists remains true; provenance is
upper. -/
theorem c6_merge_steals_attrs (uin lin : Inode) (uerr lerr : Option Errno)
    (u l : Inode) (name : String)
    (hue : benignErr uerr = true)
    (hw : overlayHasWhiteout uin name = false)
    (hle : benignErr lerr = true)
    (hcompat : u.stableAttr.typ = l.stableAttr.typ
      ∨ (IsDir u.stableAttr = true ∧ IsDir l.stableAttr = true)) :
    overlayLookup ⟨some ⟨uin, some (ChildRes.pos u), uerr⟩,
        some ⟨lin, some (ChildRes.pos l), lerr⟩⟩ name
      = OLResult.found name
          ⟨some ⟨l.stableAttr, u.xattrs⟩,
            if IsDir l.stableAttr then some l else none, true⟩ true := by
  have hbody : overlayLookupMerge name (some u) (some l) false
      = OLResult.found name
          ⟨some ⟨l.stableAttr, u.xattrs⟩,
            if IsDir l.stableAttr then some l else none, true⟩ true := by
    by_cases hd : IsDir l.stableAttr = true
    · simp [overlayLookupMerge, hd]
    · simp [overlayLookupMerge, hd]
  have hlow : overlayLookupLowerPhase (some ⟨lin, some (ChildRes.pos l), lerr⟩) name
      (some u) false
        = OLResult.found name
            ⟨some ⟨l.stableAttr, u.xattrs⟩,
              if IsDir l.stableAttr then some l else none, true⟩ true := by
    rcases lerr with _ | e
    · simp only [overlayLookupLowerPhase, overlayLookupLowerChild]
      rw [if_pos hcompat]
      exact hbody
    · rcases e with _ | _ | _ | _ | _ | _
      all_goals try exact absurd hle (by decide)
      simp only [overlayLookupLowerPhase]
      rw [if_pos trivial]
      simp only [overlayLookupLowerChild]
      rw [if_pos hcompat]
      exact hbody
  have hafter : overlayLookupAfterUpper ⟨uin, some (ChildRes.pos u), uerr⟩
      (some ⟨lin, some (ChildRes.pos l), lerr⟩) name
        = overlayLookupLowerPhase (some ⟨lin, some (ChildRes.pos l), lerr⟩) name
            (some u) false := by
    simp only [overlayLookupAfterUpper, hw, Bool.false_eq_true, if_false]
  rcases uerr with _ | e
  · rw [show overlayLookup ⟨some ⟨uin, some (ChildRes.pos u), none⟩,
        some ⟨lin, some (ChildRes.pos l), lerr⟩⟩ name
          = overlayLookupAfterUpper ⟨uin, some (ChildRes.pos u), none⟩
              (some ⟨lin, some (ChildRes.pos l), lerr⟩) name from rfl, hafter, hlow]
  · rcases e with _ | _ | _ | _ | _ | _
    all_goals try exact absurd hue (by decide)
    rw [show overlayLookup ⟨some ⟨uin, some (ChildRes.pos u), some Errno.ENOENT⟩,
        some ⟨lin, some (ChildRes.pos l), lerr⟩⟩ name
          = overlayLookupAfterUpper ⟨uin, some (ChildRes.pos u), some Errno.ENOENT⟩
              (some ⟨lin, some (ChildRes.pos l), lerr⟩) name from rfl, hafter, hlow]

/-- C6 witness: the theorem applied to concrete type-compatible upper
and lower regular files; the attributes come from the lower inode and
the lower reference is dropped. -/
theorem c6_merge_steals_attrs_witness :
    overlayLookup ⟨some ⟨inodeDirPlain, ⟨some (ChildRes.pos inodeUpperFile), none⟩⟩,
        some ⟨inodeDirPlain, ⟨some (ChildRes.pos inodeLowerFile), none⟩⟩⟩ "foo"
      = OLResult.found "foo"
          ⟨some ⟨inodeLowerFile.stableAttr, inodeUpperFile.xattrs⟩,
            if IsDir inodeLowerFile.stableAttr then some inodeLowerFile else none, true⟩ true :=
  c6_merge_steals_attrs inodeDirPlain inodeDirPlain none none
    inodeUpperFile inodeLowerFile "foo" (by decide) (by decide) (by decide)
    (Or.inl (by decide))

/-- Looking up a key just set by `setxattrA` yields the new value. -/
theorem setxattrA_lookup_self (xs : List (String × String)) (k v : String) :
    (setxattrA xs k v).lookup k = some v := by
  induction xs with
  | nil => simp [setxattrA, List.lookup]
  | cons hd tl ih =>
    obtain ⟨k2, v2⟩ := hd
    by_cases h : k2 = k
    · subst h
      simp [setxattrA, List.lookup]
    · simp only [setxattrA, h, if_false, List.lookup]
      have : (k == k2) = false := by
        simp [beq_eq_false_iff_ne]
        exact fun he => h he.symm
      rw [this]
      exact ih

/-- C7: removing a child whose entry has lowerExists = true (with all
backing calls succeeding) returns success, creates a whiteout marker
for the name on the parent's upper inode even when the child has no
upper counterpart, delegates removal to the upper layer first when an
upper counterpart exists (RemoveDirectory for the Directory type,
Remove otherwise, before the whiteout call), and a subsequent lookup
of that name returns not-found even though the lower layer still
holds the file. -/
theorem c7_remove_whiteout (parentUpper : Inode) (childEntry : OverlayEntryData)
    (childTyp : InodeType) (name : String) (lowLayer lowChild : Inode)
    (hle : childEntry.lowerExists = true) :
    (overlayRemove ⟨none, none, none, none⟩ parentUpper childEntry childTyp name).res = none
    ∧ (overlayRemove ⟨none, none, none, none⟩ parentUpper childEntry childTyp name).events
        = RmEvent.copyUpParent ::
          ((match childEntry.upper with
            | some _ =>
              if childTyp = InodeType.Directory then [RmEvent.upperRemoveDirectory name]
              else [RmEvent.upperRemove name]
            | none => []) ++ [RmEvent.createWhiteout name])
    ∧ ((overlayRemove ⟨none, none, none, none⟩ parentUpper childEntry childTyp
          name).parentUpperXattrs).lookup (XattrOverlayWhiteout name) = some "y"
    ∧ overlayLookup
        ⟨some ⟨⟨parentUpper.stableAttr,
            (overlayRemove ⟨none, none, none, none⟩ parentUpper childEntry childTyp
              name).parentUpperXattrs⟩,
          ⟨none, some Errno.ENOENT⟩⟩,
        some ⟨lowLayer, ⟨some (ChildRes.pos lowChild), none⟩⟩⟩ name
      = OLResult.err Errno.ENOENT := by
  have hout : overlayRemove ⟨none, none, none, none⟩ parentUpper childEntry childTyp name
      = ⟨none,
          RmEvent.copyUpParent ::
            ((match childEntry.upper with
              | some _ =>
                if childTyp = InodeType.Directory then [RmEvent.upperRemoveDirectory name]
                else [RmEvent.upperRemove name]
              | none => []) ++ [RmEvent.createWhiteout name]),
          setxattrA parentUpper.xattrs (XattrOverlayWhiteout name) "y"⟩ := by
    rcases childEntry with ⟨cu, cl, clex⟩
    simp only at hle
    subst hle
    rcases cu with _ | u
    · simp [overlayRemove, overlayRemoveWhiteoutStep]
    · by_cases hd : childTyp = InodeType.Directory
      · simp [overlayRemove, overlayRemoveWhiteoutStep, hd]
      · simp [overlayRemove, overlayRemoveWhiteoutStep, hd]
  have hwE : overlayHasWhiteout
      ⟨parentUpper.stableAttr, setxattrA parentUpper.xattrs (XattrOverlayWhiteout name) "y"⟩
      name = true := by
    simp [overlayHasWhiteout, getxattrI, setxattrA_lookup_self]
  refine ⟨by rw [hout], by rw [hout], ?_, ?_⟩
  · rw [hout]
    exact setxattrA_lookup_self _ _ _
  · rw [hout]
    simp only [overlayLookup, overlayLookupUpperPhase, overlayLookupAfterUpper, hwE]
    simp

/-- C7 witness: the theorem applied to a lower-only child named "foo"
with a lower file still present; after the remove, lookup returns
ENOENT. -/
theorem c7_remove_whiteout_witness :
    overlayLookup
        ⟨some ⟨⟨inodeDirPlain.stableAttr,
            (overlayRemove ⟨none, none, none, none⟩ inodeDirPlain
              ⟨none, some inodeLowerFile, true⟩ InodeType.RegularFile
              "foo").parentUpperXattrs⟩,
          ⟨none, some Errno.ENOENT⟩⟩,
        some ⟨inodeDirPlain, ⟨some (ChildRes.pos inodeLowerFile), none⟩⟩⟩ "foo"
      = OLResult.err Errno.ENOENT :=
  (c7_remove_whiteout inodeDirPlain ⟨none, some inodeLowerFile, true⟩ InodeType.RegularFile
    "foo" inodeDirPlain inodeLowerFile rfl).2.2.2

/-- C2: a replacing rename whose destination re-resolves to a
non-negative directory with at least one child fails with ENOTEMPTY
and performs no mutation at all: no copy-up of the renamed entry or
the destination parent, no whiteout creation, and no delegated
upper-layer rename call (the event trace is empty). -/
theorem c2_rename_nonempty_dir (env : RenameEnv) (lex : Bool) (oldName newName : String)
    (entry : OverlayEntryData) (inUpper : Bool) (children : List String)
    (hres : overlayLookup env.resolveEnv newName = OLResult.found newName entry inUpper)
    (hdir : IsDir (entryStableAttr entry) = true)
    (hrd : env.readdir = Except.ok children)
    (hne : 0 < children.length) :
    overlayRename env true true true lex oldName newName true
      = ⟨RenameRes.ret (some Errno.ENOTEMPTY), []⟩ := by
  simp only [overlayRename, Bool.not_true, Bool.or_self, Bool.false_eq_true, if_false,
    if_true, hres, hdir, hrd]
  rw [if_pos hne]

/-- A destination directory inode found in the upper layer during the
rename re-resolution. -/
def inodeDirChild : Inode := ⟨⟨InodeType.Directory, 3, 30⟩, []⟩

/-- A concrete rename environment: the destination re-resolves to an
upper-resident directory and readdir reports one child. -/
def renameEnvNE : RenameEnv :=
  ⟨⟨some ⟨inodeDirPlain, ⟨some (ChildRes.pos inodeDirChild), none⟩⟩, none⟩,
    Except.ok ["kid"], none, none, none, none⟩

/-- C2 witness: the theorem applied to the concrete environment. -/
theorem c2_rename_nonempty_dir_witness :
    overlayRename renameEnvNE true true true false "a" "b" true
      = ⟨RenameRes.ret (some Errno.ENOTEMPTY), []⟩ :=
  c2_rename_nonempty_dir renameEnvNE false "a" "b" ⟨some inodeDirChild, none, false⟩ true
    ["kid"] (by decide) (by decide) rfl (by decide)
